import Mathlib

/-!
Verification of the gVCF filtering core (src/filter.py): the three pass
predicates, FORMAT/sample subfield extraction, and the streaming
filter-and-count loop with its progressive funnel counters.

A Python string is modelled as its list of Unicode characters (`PyStr`).
A Python expression that can raise is modelled in `Except Unit`, the
`error` case standing for a raised exception (`ValueError`).
-/

abbrev PyStr := List Char

/-- Decimal-digit value of a character, as recognised by the Python `int()`
conversion (Unicode general category Nd).  The table covers the ASCII digits
and the Basic-Multilingual-Plane Nd ranges exercised in this development
(Arabic-Indic, extended Arabic-Indic, Devanagari, Bengali, Thai, fullwidth);
Python recognises further Nd ranges with identical behaviour. -/
def pyDecimalVal (c : Char) : Option Nat :=
  if 0x30 ≤ c.toNat && c.toNat ≤ 0x39 then some (c.toNat - 0x30)
  else if 0x660 ≤ c.toNat && c.toNat ≤ 0x669 then some (c.toNat - 0x660)
  else if 0x6F0 ≤ c.toNat && c.toNat ≤ 0x6F9 then some (c.toNat - 0x6F0)
  else if 0x966 ≤ c.toNat && c.toNat ≤ 0x96F then some (c.toNat - 0x966)
  else if 0x9E6 ≤ c.toNat && c.toNat ≤ 0x9EF then some (c.toNat - 0x9E6)
  else if 0xE50 ≤ c.toNat && c.toNat ≤ 0xE59 then some (c.toNat - 0xE50)
  else if 0xFF10 ≤ c.toNat && c.toNat ≤ 0xFF19 then some (c.toNat - 0xFF10)
  else none

/-- Characters whose Unicode numeric type is Digit but not Decimal: accepted
by the Python `str.isdigit` test yet rejected by `int()`.  The table covers
the superscript digits (U+00B2, U+00B3, U+00B9, U+2070, U+2074..U+2079) and
the subscript digits (U+2080..U+2089); Python recognises further such
characters (for example circled digits) with identical behaviour. -/
def pyDigitOnly (c : Char) : Bool :=
  c.toNat == 0xB2 || c.toNat == 0xB3 || c.toNat == 0xB9 || c.toNat == 0x2070 ||
  (0x2074 ≤ c.toNat && c.toNat ≤ 0x2079) ||
  (0x2080 ≤ c.toNat && c.toNat ≤ 0x2089)

/-- Model of the Python `str.isdigit`: the string is non-empty and every
character has numeric type Digit or Decimal. -/
def pyIsDigit (s : PyStr) : Bool :=
  !s.isEmpty && s.all (fun c => (pyDecimalVal c).isSome || pyDigitOnly c)

/-- Model of the Python `int(s)` conversion as applied in this program,
namely to strings that already passed `isdigit`: it succeeds exactly when
every character is a decimal digit (`int()` rejects digit-type characters
such as the superscript two) and returns the base-10 value; `none` models a
raised `ValueError`. -/
def pyInt (s : PyStr) : Option Nat :=
  if !s.isEmpty && s.all (fun c => (pyDecimalVal c).isSome) then
    some (s.foldl (fun acc c => acc * 10 + (pyDecimalVal c).getD 0) 0)
  else none

/-- Base-10 value of an all-decimal string (the value `pyInt` returns when it
succeeds). -/
def pyIntVal (s : PyStr) : Nat :=
  s.foldl (fun acc c => acc * 10 + (pyDecimalVal c).getD 0) 0

/-- Model of the Python `s.split(sep)` for a single-character separator:
splits at every occurrence, keeping empty pieces, and yields `[""]` on the
empty string. -/
def splitChar (sep : Char) : PyStr → List PyStr
  | [] => [[]]
  | c :: cs =>
    match splitChar sep cs with
    | [] => [[]]
    | t :: ts => if c = sep then [] :: t :: ts else (c :: t) :: ts

/-- Model of the Python `line.rstrip("\n")`: remove every trailing newline
character (and only newline characters; a carriage return is kept). -/
def rstripNL (l : PyStr) : PyStr :=
  (l.reverse.dropWhile (fun c => c = '\n')).reverse

/-- Model of the Python `line.startswith("#")` (false on the empty line). -/
def startsHash (l : PyStr) : Bool :=
  match l with
  | c :: _ => c = '#'
  | [] => false

/-- From src/filter.py, `is_heterozygous`: the genotype equals the literal
`0|1` or `1|0`; `none` (Python `None`) is not heterozygous. -/
def is_heterozygous (gt : Option PyStr) : Bool :=
  gt == some "0|1".data || gt == some "1|0".data

/-- From src/filter.py, `dp_passes`: `dp is not None and dp.isdigit() and
int(dp) > 20`, with the possibility that `int` raises. -/
def dp_passes (dp : Option PyStr) : Except Unit Bool :=
  match dp with
  | none => .ok false
  | some s =>
    if pyIsDigit s then
      match pyInt s with
      | some n => .ok (decide (n > 20))
      | none => .error ()
    else .ok false

/-- From src/filter.py, `gq_passes`: `gq is not None and gq.isdigit() and
int(gq) >= 30`, with the possibility that `int` raises. -/
def gq_passes (gq : Option PyStr) : Except Unit Bool :=
  match gq with
  | none => .ok false
  | some s =>
    if pyIsDigit s then
      match pyInt s with
      | some n => .ok (decide (n ≥ 30))
      | none => .error ()
    else .ok false

/-- From src/filter.py, `extract_gt_dp_gq`: split FORMAT and the sample
column on `:`, build `dict(zip(keys, vals))` — pairing truncates at the
shorter list and a later duplicate key overwrites an earlier one, which the
model realises by looking the key up in the reversed pair list — and return
`m.get` of `GT`, `DP`, `GQ` (`none` when absent). -/
def extract_gt_dp_gq (fmt sample : PyStr) :
    Option PyStr × Option PyStr × Option PyStr :=
  let keys := splitChar ':' fmt
  let vals := splitChar ':' sample
  let m := (keys.zip vals).reverse
  (m.lookup "GT".data, m.lookup "DP".data, m.lookup "GQ".data)

/-- The five progressive counters of `filter_and_count` (the returned dict
also repeats `after_gq` under the name `Het_Count`). -/
structure Counts where
  n_records : Nat
  gt_missing : Nat
  after_gt : Nat
  after_dp : Nat
  after_gq : Nat
deriving DecidableEq, Repr

def Counts.init : Counts := ⟨0, 0, 0, 0, 0⟩

/-- The genotype tokens classified as missing by src/filter.py line 98:
`gt in (None, ".", "./.", ".|.")`. -/
def gtMissing (gt : Option PyStr) : Bool :=
  gt == none || gt == some ".".data || gt == some "./.".data ||
    gt == some ".|.".data

/-- One iteration of the loop body of `filter_and_count` (src/filter.py
lines 86-113) on one input line, threading the counters and the list of
lines written so far; `error` models an exception escaping the loop. -/
def processLine (c : Counts) (out : List PyStr) (line : PyStr) :
    Except Unit (Counts × List PyStr) :=
  if startsHash line then .ok (c, out ++ [line])
  else
    let parts := splitChar '\t' (rstripNL line)
    if parts.length < 10 then .ok (c, out)
    else
      let e := extract_gt_dp_gq (parts.getD 8 []) (parts.getD 9 [])
      let c1 : Counts := { c with n_records := c.n_records + 1 }
      let c2 : Counts :=
        if gtMissing e.1 then { c1 with gt_missing := c1.gt_missing + 1 }
        else c1
      if is_heterozygous e.1 then
        let c3 : Counts := { c2 with after_gt := c2.after_gt + 1 }
        match dp_passes e.2.1 with
        | .error u => .error u
        | .ok false => .ok (c3, out)
        | .ok true =>
          let c4 : Counts := { c3 with after_dp := c3.after_dp + 1 }
          match gq_passes e.2.2 with
          | .error u => .error u
          | .ok false => .ok (c4, out)
          | .ok true =>
            .ok ({ c4 with after_gq := c4.after_gq + 1 }, out ++ [line])
      else .ok (c2, out)

/-- The loop of `filter_and_count` over the remaining input lines. -/
def filterLoop (c : Counts) (out : List PyStr) :
    List PyStr → Except Unit (Counts × List PyStr)
  | [] => .ok (c, out)
  | l :: ls =>
    match processLine c out l with
    | .error u => .error u
    | .ok (c2, out2) => filterLoop c2 out2 ls

/-- From src/filter.py, `filter_and_count`, abstracting the gzip streams: the
input is the list of decoded text lines (each still carrying its trailing
newline, as the Python line iterator delivers them) and the output is the
list of lines written.  Returns the final counters and the output lines, or
`error` when an iteration raises. -/
def filter_and_count (lines : List PyStr) :
    Except Unit (Counts × List PyStr) :=
  filterLoop Counts.init [] lines

/-- Modelled from the claim wording for the extraction mapping: the
positional key-value association over the zipped token lists in which a
later occurrence of a key overrides an earlier one; `none` when the key
never occurs among the paired positions. -/
def lastWins (k : PyStr) : List (PyStr × PyStr) → Option PyStr
  | [] => none
  | p :: rest =>
    match lastWins k rest with
    | some v => some v
    | none => if p.1 = k then some p.2 else none

/-- The depth predicate as the specification words it: present, non-empty,
composed entirely of ASCII digits, integer value strictly greater than 20. -/
def specDpPasses (dp : Option PyStr) : Bool :=
  match dp with
  | none => false
  | some s =>
    !s.isEmpty && s.all (fun c => '0' ≤ c && c ≤ '9') &&
      decide (20 < pyIntVal s)

/-- The tab-separated fields of a line after stripping trailing newlines,
as the loop body computes them. -/
def lineParts (line : PyStr) : List PyStr := splitChar '\t' (rstripNL line)

/-- The colon-separated FORMAT keys of a line (field index 8). -/
def lineKeys (line : PyStr) : List PyStr :=
  splitChar ':' ((lineParts line).getD 8 [])

/-- The colon-separated sample values of a line (field index 9). -/
def lineVals (line : PyStr) : List PyStr :=
  splitChar ':' ((lineParts line).getD 9 [])

/-- Re-parse a line the way the loop body parses it: split on tab after
stripping trailing newlines and extract GT, DP, GQ from fields 8 and 9. -/
def reparse (line : PyStr) : Option PyStr × Option PyStr × Option PyStr :=
  extract_gt_dp_gq ((lineParts line).getD 8 []) ((lineParts line).getD 9 [])

/-- Header line of the specification scenario. -/
def hdr3 : PyStr :=
  "#CHROM\tPOS\tID\tREF\tALT\tQUAL\tFILTER\tINFO\tFORMAT\t6iegzyVR\n".data

/-- Scenario record passing all three filters. -/
def rec3a : PyStr :=
  "chr1\t49272\t.\tG\tA\t148.77\tPASS\t.\tGT:AD:DP:GQ\t1|0:14,7:21:99\n".data

/-- Scenario record that is heterozygous but fails the depth filter. -/
def rec3b : PyStr :=
  "chr1\t732021\t.\tC\tT\t26.78\tPASS\t.\tGT:AD:DP:GQ\t0|1:15,3:18:55\n".data

/-- Scenario record failing the heterozygosity filter. -/
def rec3c : PyStr :=
  "chr1\t873542\t.\tG\tA\t659.77\tPASS\t.\tGT:AD:DP:GQ\t1|1:0,16:16:48\n".data

/-- A data line whose genotype subfield is the missing token. -/
def lineMissingGT : PyStr :=
  "chr1\t100\t.\tG\tA\t50\tPASS\t.\tGT\t.\n".data

/-- A heterozygous data line whose depth fails the threshold. -/
def lineHetLowDp : PyStr :=
  "chr1\t100\t.\tG\tA\t50\tPASS\t.\tGT:DP\t0|1:5\n".data

/-- A data line passing all three filters. -/
def linePassAll : PyStr :=
  "chr1\t100\t.\tG\tA\t50\tPASS\t.\tGT:DP:GQ\t0|1:21:30\n".data

/-- A data line carrying a carriage-return before its newline terminator,
with DP as the last FORMAT key. -/
def lineCRLF : PyStr :=
  "chr1\t100\t.\tG\tA\t50\tPASS\t.\tGT:DP\t0|1:21\r\n".data

/-- `lineCRLF` without its final carriage-return and newline. -/
def lineCRLFbody : PyStr :=
  "chr1\t100\t.\tG\tA\t50\tPASS\t.\tGT:DP\t0|1:21".data

/-- A data line whose DP subfield is the superscript-two character. -/
def lineSuperscript : PyStr :=
  "chr1\t100\t.\tG\tA\t50\tPASS\t.\tGT:DP\t0|1:²\n".data

instance : DecidableEq (Except Unit (Counts × List PyStr)) := fun a b => by
  cases a <;> cases b
  case ok.ok x y => exact decidable_of_iff (x = y) (by simp)
  case error.error x y => exact decidable_of_iff (x = y) (by simp)
  all_goals exact isFalse (by simp)

instance : DecidableEq (Except Unit Bool) := fun a b => by
  cases a <;> cases b
  case ok.ok x y => exact decidable_of_iff (x = y) (by simp)
  case error.error x y => exact decidable_of_iff (x = y) (by simp)
  all_goals exact isFalse (by simp)

/-- Counter state after the record-counting step of one data line: total
records up by one, the missing-genotype counter up by one when the
extracted genotype is classified missing. -/
def cRec (c : Counts) (m : Bool) : Counts :=
  if m then
    { c with n_records := c.n_records + 1, gt_missing := c.gt_missing + 1 }
  else { c with n_records := c.n_records + 1 }

/-- Counter state after additionally passing the heterozygosity stage. -/
def cHet (c : Counts) (m : Bool) : Counts :=
  { cRec c m with after_gt := c.after_gt + 1 }

/-- Counter state after additionally passing the depth stage. -/
def cDp (c : Counts) (m : Bool) : Counts :=
  { cHet c m with after_dp := c.after_dp + 1 }

/-- Counter state after additionally passing the quality stage. -/
def cGq (c : Counts) (m : Bool) : Counts :=
  { cDp c m with after_gq := c.after_gq + 1 }

set_option maxRecDepth 40000

/-- C8: for every line that starts with the header marker `#`,
`filter_and_count` copies the line to the output stream unchanged and
leaves all five counters unchanged. -/
theorem gvcf_C8_header_passthrough (line : PyStr) (c : Counts)
    (out : List PyStr) (h : startsHash line = true) :
    processLine c out line = .ok (c, out ++ [line]) := by
  simp [processLine, h]

theorem gvcf_C8_header_passthrough_witness :
    processLine Counts.init [] hdr3 = .ok (Counts.init, [] ++ [hdr3]) :=
  gvcf_C8_header_passthrough hdr3 Counts.init [] (by decide)

/-- C9: every non-header line that splits into fewer than 10 tab-separated
fields is dropped entirely: not written to output and no counter
incremented. -/
theorem gvcf_C9_short_line_dropped (line : PyStr) (c : Counts)
    (out : List PyStr) (h1 : startsHash line = false)
    (h2 : (splitChar '\t' (rstripNL line)).length < 10) :
    processLine c out line = .ok (c, out) := by
  simp [processLine, h1, h2]

theorem gvcf_C9_short_line_dropped_witness :
    processLine Counts.init [] ("chr1\t100\tonly\tthree\tfields\n".data)
      = .ok (Counts.init, []) :=
  gvcf_C9_short_line_dropped "chr1\t100\tonly\tthree\tfields\n".data
    Counts.init [] (by decide) (by decide)

/-- C3 counterexample: on the specification scenario the claimed counts
(total=3, after_het=1, after_dp=1, after_gq=1) are wrong, because the
second record with genotype `0|1` passes the heterozygosity stage before
failing depth, so `After_GT_Het` is 2, not 1. -/
theorem gvcf_C3_scenario_counterexample :
    ¬ (filter_and_count [hdr3, rec3a, rec3b, rec3c]
        = .ok (⟨3, 0, 1, 1, 1⟩, [hdr3, rec3a])) := by
  decide

/-- C3 (amended): on the specification scenario `filter_and_count` returns
total=3, missing=0, after_het=2, after_dp=1, after_gq=1, and the output is
the header plus exactly the first data line. -/
theorem gvcf_C3_scenario :
    filter_and_count [hdr3, rec3a, rec3b, rec3c]
      = .ok (⟨3, 0, 2, 1, 1⟩, [hdr3, rec3a]) := by
  decide

/-- C4: the claimed no-raise policy is broken by the code: a DP or GQ value
consisting of the superscript-two character makes `isdigit` succeed while
`int()` raises `ValueError`, so the predicates (and the whole per-line
processing) raise instead of failing silently. -/
theorem gvcf_C4_superscript_raises :
    dp_passes (some ['²']) = .error () ∧
    gq_passes (some ['²']) = .error () ∧
    filter_and_count [lineSuperscript] = .error () := by
  decide

theorem lookup_append_pairs (k : PyStr) (l1 l2 : List (PyStr × PyStr)) :
    (l1 ++ l2).lookup k =
      match l1.lookup k with
      | some v => some v
      | none => l2.lookup k := by
  induction l1 with
  | nil => simp [List.lookup]
  | cons p l1 ih =>
    obtain ⟨a, b⟩ := p
    simp only [List.cons_append, List.lookup]
    cases h : k == a <;> simp [h, ih]

theorem lookup_reverse_eq_lastWins (k : PyStr) (ps : List (PyStr × PyStr)) :
    ps.reverse.lookup k = lastWins k ps := by
  induction ps with
  | nil => simp [lastWins, List.lookup]
  | cons p ps ih =>
    obtain ⟨a, b⟩ := p
    simp only [List.reverse_cons, lastWins]
    rw [lookup_append_pairs, ih]
    cases hl : lastWins k ps
    · simp only [List.lookup]
      by_cases hak : a = k
      · subst hak; simp
      · have hb : (k == a) = false := by
          simp [beq_eq_false_iff_ne]
          intro he; exact hak he.symm
        simp [hb, hak]
    · simp

theorem lastWins_none_iff (k : PyStr) (ps : List (PyStr × PyStr)) :
    lastWins k ps = none ↔ ∀ p ∈ ps, p.1 ≠ k := by
  induction ps with
  | nil => simp [lastWins]
  | cons p ps ih =>
    simp only [lastWins, List.forall_mem_cons]
    cases hl : lastWins k ps with
    | some v =>
      simp only []
      constructor
      · intro h; exact absurd h (by simp)
      · rintro ⟨h1, h2⟩
        exact absurd hl (by simp [ih.mpr h2])
    | none =>
      constructor
      · intro h
        by_cases hk : p.1 = k
        · rw [if_pos hk] at h; exact absurd h (by simp)
        · exact ⟨hk, ih.mp hl⟩
      · rintro ⟨h1, h2⟩
        rw [if_neg h1]

/-- C6: `extract_gt_dp_gq` realises exactly the positional mapping over the
overlapping positions of the two token lists (the zip truncates at the
shorter list, so unmatched trailing keys or values are ignored) in which a
duplicated key is resolved in favour of its last occurrence, and each of
GT, DP, GQ that never occurs as a key yields `none` rather than an error. -/
theorem gvcf_C6_extract (fmt sample : PyStr) :
    extract_gt_dp_gq fmt sample =
      (lastWins "GT".data ((splitChar ':' fmt).zip (splitChar ':' sample)),
       lastWins "DP".data ((splitChar ':' fmt).zip (splitChar ':' sample)),
       lastWins "GQ".data ((splitChar ':' fmt).zip (splitChar ':' sample))) ∧
    ((extract_gt_dp_gq fmt sample).1 = none ↔
      ∀ p ∈ (splitChar ':' fmt).zip (splitChar ':' sample),
        p.1 ≠ "GT".data) ∧
    ((extract_gt_dp_gq fmt sample).2.1 = none ↔
      ∀ p ∈ (splitChar ':' fmt).zip (splitChar ':' sample),
        p.1 ≠ "DP".data) ∧
    ((extract_gt_dp_gq fmt sample).2.2 = none ↔
      ∀ p ∈ (splitChar ':' fmt).zip (splitChar ':' sample),
        p.1 ≠ "GQ".data) := by
  refine ⟨?_, ?_, ?_, ?_⟩ <;>
    simp [extract_gt_dp_gq, lookup_reverse_eq_lastWins, lastWins_none_iff]

theorem gvcf_C6_extract_witness :
    extract_gt_dp_gq "GT:DP:GT".data "a:b:c".data =
      (lastWins "GT".data
        ((splitChar ':' "GT:DP:GT".data).zip (splitChar ':' "a:b:c".data)),
       lastWins "DP".data
        ((splitChar ':' "GT:DP:GT".data).zip (splitChar ':' "a:b:c".data)),
       lastWins "GQ".data
        ((splitChar ':' "GT:DP:GT".data).zip (splitChar ':' "a:b:c".data))) ∧
    extract_gt_dp_gq "GT:DP:GT".data "a:b:c".data =
      (some "c".data, some "b".data, none) :=
  ⟨(gvcf_C6_extract "GT:DP:GT".data "a:b:c".data).1, by decide⟩

theorem pyIsDigit_of_decimal (s : PyStr) (h1 : s ≠ [])
    (h2 : ∀ c ∈ s, (pyDecimalVal c).isSome = true) : pyIsDigit s = true := by
  simp only [pyIsDigit, Bool.and_eq_true, Bool.not_eq_true', List.all_eq_true]
  constructor
  · simpa [List.isEmpty_iff] using h1
  · intro c hc
    simp [h2 c hc]

theorem pyInt_eq_some_iff (s : PyStr) (n : Nat) :
    pyInt s = some n ↔
      s ≠ [] ∧ (∀ c ∈ s, (pyDecimalVal c).isSome = true) ∧ n = pyIntVal s := by
  unfold pyInt
  split
  next h =>
    simp only [Bool.and_eq_true, Bool.not_eq_true', List.all_eq_true] at h
    have h1 : s ≠ [] := by simpa [List.isEmpty_iff] using h.1
    simp only [Option.some.injEq]
    constructor
    · intro hn; exact ⟨h1, h.2, hn.symm⟩
    · rintro ⟨-, -, rfl⟩; rfl
  next h =>
    simp only [Bool.and_eq_true, Bool.not_eq_true', List.all_eq_true] at h
    constructor
    · intro hc; exact absurd hc (by simp)
    · rintro ⟨h1, h2, -⟩
      exact absurd ⟨by simpa [List.isEmpty_iff] using h1, h2⟩ h

theorem dp_passes_ok_true_iff (s : PyStr) :
    dp_passes (some s) = .ok true ↔
      s ≠ [] ∧ (∀ c ∈ s, (pyDecimalVal c).isSome = true) ∧ 20 < pyIntVal s := by
  simp only [dp_passes]
  by_cases hd : pyIsDigit s = true
  · rw [if_pos hd]
    cases hp : pyInt s with
    | none =>
      constructor
      · intro hc; exact absurd hc (by simp)
      · rintro ⟨h1, h2, -⟩
        rw [(pyInt_eq_some_iff s (pyIntVal s)).mpr ⟨h1, h2, rfl⟩] at hp
        exact absurd hp (by simp)
    | some n =>
      obtain ⟨h1, h2, rfl⟩ := (pyInt_eq_some_iff s n).mp hp
      simp only [Except.ok.injEq, decide_eq_true_eq, ge_iff_le]
      constructor
      · intro hn; exact ⟨h1, h2, hn⟩
      · rintro ⟨-, -, hn⟩; exact hn
  · rw [if_neg hd]
    constructor
    · intro hc; exact absurd hc (by simp)
    · rintro ⟨h1, h2, -⟩
      exact absurd (pyIsDigit_of_decimal s h1 h2) hd

theorem gq_passes_ok_true_iff (s : PyStr) :
    gq_passes (some s) = .ok true ↔
      s ≠ [] ∧ (∀ c ∈ s, (pyDecimalVal c).isSome = true) ∧ 30 ≤ pyIntVal s := by
  simp only [gq_passes]
  by_cases hd : pyIsDigit s = true
  · rw [if_pos hd]
    cases hp : pyInt s with
    | none =>
      constructor
      · intro hc; exact absurd hc (by simp)
      · rintro ⟨h1, h2, -⟩
        rw [(pyInt_eq_some_iff s (pyIntVal s)).mpr ⟨h1, h2, rfl⟩] at hp
        exact absurd hp (by simp)
    | some n =>
      obtain ⟨h1, h2, rfl⟩ := (pyInt_eq_some_iff s n).mp hp
      simp only [Except.ok.injEq, decide_eq_true_eq, ge_iff_le]
      constructor
      · intro hn; exact ⟨h1, h2, hn⟩
      · rintro ⟨-, -, hn⟩; exact hn
  · rw [if_neg hd]
    constructor
    · intro hc; exact absurd hc (by simp)
    · rintro ⟨h1, h2, -⟩
      exact absurd (pyIsDigit_of_decimal s h1 h2) hd

/-- C1 counterexample: the depth predicate is not restricted to ASCII
digits — the Arabic-Indic numeral string for 21 passes the code predicate
while the predicate worded by the specification (ASCII digits only)
rejects it. -/
theorem gvcf_C1_ascii_counterexample :
    dp_passes (some ['٢', '١']) = .ok true ∧
    specDpPasses (some ['٢', '١']) = false := by
  decide

/-- C1 (amended): `is_heterozygous` is true exactly on the literals `0|1`
and `1|0`; `dp_passes` returns true exactly for a present, non-empty string
of Unicode decimal digits (not only ASCII) whose value exceeds 20; and
`gq_passes` likewise with value at least 30.  Boundary values: DP 20 fails,
DP 21 passes, leading-zero DP 021 passes, GQ 30 passes, GQ 29 fails. -/
theorem gvcf_C1_predicates :
    (∀ gt : Option PyStr, is_heterozygous gt = true ↔
       (gt = some "0|1".data ∨ gt = some "1|0".data)) ∧
    dp_passes none = .ok false ∧
    (∀ s : PyStr, dp_passes (some s) = .ok true ↔
       (s ≠ [] ∧ (∀ c ∈ s, (pyDecimalVal c).isSome = true) ∧
         20 < pyIntVal s)) ∧
    gq_passes none = .ok false ∧
    (∀ s : PyStr, gq_passes (some s) = .ok true ↔
       (s ≠ [] ∧ (∀ c ∈ s, (pyDecimalVal c).isSome = true) ∧
         30 ≤ pyIntVal s)) ∧
    dp_passes (some "20".data) = .ok false ∧
    dp_passes (some "21".data) = .ok true ∧
    dp_passes (some "021".data) = .ok true ∧
    gq_passes (some "30".data) = .ok true ∧
    gq_passes (some "29".data) = .ok false := by
  refine ⟨?_, by decide, dp_passes_ok_true_iff, by decide,
    gq_passes_ok_true_iff, by decide, by decide, by decide, by decide,
    by decide⟩
  intro gt
  simp [is_heterozygous]

theorem gvcf_C1_predicates_witness :
    is_heterozygous (some "1|0".data) = true ∧
    dp_passes (some "1000000".data) = .ok true :=
  ⟨(gvcf_C1_predicates.1 (some "1|0".data)).mpr (Or.inr rfl),
   (gvcf_C1_predicates.2.2.1 "1000000".data).mpr
     ⟨by decide, by decide, by decide⟩⟩

theorem processLine_cases (c : Counts) (out : List PyStr) (l : PyStr)
    (c2 : Counts) (out2 : List PyStr)
    (h : processLine c out l = .ok (c2, out2)) :
    (startsHash l = true ∧ c2 = c ∧ out2 = out ++ [l]) ∨
    (startsHash l = false ∧ (lineParts l).length < 10 ∧ c2 = c ∧
      out2 = out) ∨
    (startsHash l = false ∧ 10 ≤ (lineParts l).length ∧
      is_heterozygous (reparse l).1 = false ∧
      c2 = cRec c (gtMissing (reparse l).1) ∧ out2 = out) ∨
    (startsHash l = false ∧ 10 ≤ (lineParts l).length ∧
      is_heterozygous (reparse l).1 = true ∧
      dp_passes (reparse l).2.1 = .ok false ∧
      c2 = cHet c (gtMissing (reparse l).1) ∧ out2 = out) ∨
    (startsHash l = false ∧ 10 ≤ (lineParts l).length ∧
      is_heterozygous (reparse l).1 = true ∧
      dp_passes (reparse l).2.1 = .ok true ∧
      gq_passes (reparse l).2.2 = .ok false ∧
      c2 = cDp c (gtMissing (reparse l).1) ∧ out2 = out) ∨
    (startsHash l = false ∧ 10 ≤ (lineParts l).length ∧
      is_heterozygous (reparse l).1 = true ∧
      dp_passes (reparse l).2.1 = .ok true ∧
      gq_passes (reparse l).2.2 = .ok true ∧
      c2 = cGq c (gtMissing (reparse l).1) ∧ out2 = out ++ [l]) := by
  simp only [processLine] at h
  by_cases h1 : startsHash l = true
  · rw [if_pos h1] at h
    simp only [Except.ok.injEq, Prod.mk.injEq] at h
    exact Or.inl ⟨h1, h.1.symm, h.2.symm⟩
  · have h1f : startsHash l = false := by simpa using h1
    rw [if_neg h1] at h
    by_cases h2 : (splitChar '\t' (rstripNL l)).length < 10
    · rw [if_pos h2] at h
      simp only [Except.ok.injEq, Prod.mk.injEq] at h
      exact Or.inr (Or.inl
        ⟨h1f, by simpa [lineParts] using h2, h.1.symm, h.2.symm⟩)
    · rw [if_neg h2] at h
      have h2le : 10 ≤ (lineParts l).length := by
        simpa [lineParts] using Nat.le_of_not_lt h2
      by_cases h3 : is_heterozygous (extract_gt_dp_gq
          ((splitChar '\t' (rstripNL l)).getD 8 [])
          ((splitChar '\t' (rstripNL l)).getD 9 [])).1 = true
      · rw [if_pos h3] at h
        cases h4 : dp_passes (extract_gt_dp_gq
            ((splitChar '\t' (rstripNL l)).getD 8 [])
            ((splitChar '\t' (rstripNL l)).getD 9 [])).2.1 with
        | error u =>
          rw [h4] at h
          exact absurd h (by simp)
        | ok b =>
          rw [h4] at h
          cases b with
          | false =>
            simp only [Except.ok.injEq, Prod.mk.injEq] at h
            refine Or.inr (Or.inr (Or.inr (Or.inl ⟨h1f, h2le,
              by simpa [reparse, lineParts] using h3,
              by simpa [reparse, lineParts] using h4, ?_, h.2.symm⟩)))
            rw [← h.1]
            simp only [reparse, lineParts]
            cases hm : gtMissing (extract_gt_dp_gq
                ((splitChar '\t' (rstripNL l)).getD 8 [])
                ((splitChar '\t' (rstripNL l)).getD 9 [])).1 <;>
              simp [cHet, cRec, hm]
          | true =>
            cases h5 : gq_passes (extract_gt_dp_gq
                ((splitChar '\t' (rstripNL l)).getD 8 [])
                ((splitChar '\t' (rstripNL l)).getD 9 [])).2.2 with
            | error u =>
              rw [h5] at h
              exact absurd h (by simp)
            | ok b2 =>
              rw [h5] at h
              cases b2 with
              | false =>
                simp only [Except.ok.injEq, Prod.mk.injEq] at h
                refine Or.inr (Or.inr (Or.inr (Or.inr (Or.inl ⟨h1f, h2le,
                  by simpa [reparse, lineParts] using h3,
                  by simpa [reparse, lineParts] using h4,
                  by simpa [reparse, lineParts] using h5, ?_, h.2.symm⟩))))
                rw [← h.1]
                simp only [reparse, lineParts]
                cases hm : gtMissing (extract_gt_dp_gq
                    ((splitChar '\t' (rstripNL l)).getD 8 [])
                    ((splitChar '\t' (rstripNL l)).getD 9 [])).1 <;>
                  simp [cDp, cHet, cRec, hm]
              | true =>
                simp only [Except.ok.injEq, Prod.mk.injEq] at h
                refine Or.inr (Or.inr (Or.inr (Or.inr (Or.inr ⟨h1f, h2le,
                  by simpa [reparse, lineParts] using h3,
                  by simpa [reparse, lineParts] using h4,
                  by simpa [reparse, lineParts] using h5, ?_, h.2.symm⟩))))
                rw [← h.1]
                simp only [reparse, lineParts]
                cases hm : gtMissing (extract_gt_dp_gq
                    ((splitChar '\t' (rstripNL l)).getD 8 [])
                    ((splitChar '\t' (rstripNL l)).getD 9 [])).1 <;>
                  simp [cGq, cDp, cHet, cRec, hm]
      · have h3f : is_heterozygous (extract_gt_dp_gq
            ((splitChar '\t' (rstripNL l)).getD 8 [])
            ((splitChar '\t' (rstripNL l)).getD 9 [])).1 = false := by
          simpa using h3
        rw [if_neg h3] at h
        simp only [Except.ok.injEq, Prod.mk.injEq] at h
        refine Or.inr (Or.inr (Or.inl ⟨h1f, h2le,
          by simpa [reparse, lineParts] using h3f, ?_, h.2.symm⟩))
        rw [← h.1]
        simp only [reparse, lineParts]
        cases hm : gtMissing (extract_gt_dp_gq
            ((splitChar '\t' (rstripNL l)).getD 8 [])
            ((splitChar '\t' (rstripNL l)).getD 9 [])).1 <;>
          simp [cRec, hm]

theorem filterLoop_inv (P : Counts → List PyStr → Prop)
    (hstep : ∀ c out l c2 out2, P c out →
      processLine c out l = .ok (c2, out2) → P c2 out2) :
    ∀ (ls : List PyStr) (c : Counts) (out : List PyStr) (c2 : Counts)
      (out2 : List PyStr), P c out →
      filterLoop c out ls = .ok (c2, out2) → P c2 out2 := by
  intro ls
  induction ls with
  | nil =>
    intro c out c2 out2 hp h
    simp only [filterLoop, Except.ok.injEq, Prod.mk.injEq] at h
    obtain ⟨h1, h2⟩ := h
    subst h1; subst h2
    exact hp
  | cons l ls ih =>
    intro c out c2 out2 hp h
    simp only [filterLoop] at h
    cases he : processLine c out l with
    | error u =>
      rw [he] at h
      exact absurd h (by simp)
    | ok p =>
      rw [he] at h
      obtain ⟨pc, pout⟩ := p
      exact ih pc pout c2 out2 (hstep c out l pc pout hp he) h

/-- C2: on every input stream for which `filter_and_count` returns, the
counters satisfy the funnel ordering After_GQ ≤ After_DP ≤ After_GT_Het ≤
N_Records, while the missing-genotype counter is decoupled from the pass
stages: concrete runs realise GT_Missing strictly above and strictly below
each of the three pass counters. -/
theorem gvcf_C2_funnel :
    (∀ (lines : List PyStr) (c : Counts) (out : List PyStr),
       filter_and_count lines = .ok (c, out) →
       c.after_gq ≤ c.after_dp ∧ c.after_dp ≤ c.after_gt ∧
         c.after_gt ≤ c.n_records) ∧
    filter_and_count [lineMissingGT] = .ok (⟨1, 1, 0, 0, 0⟩, []) ∧
    filter_and_count [lineHetLowDp] = .ok (⟨1, 0, 1, 0, 0⟩, []) ∧
    filter_and_count [linePassAll] =
      .ok (⟨1, 0, 1, 1, 1⟩, [linePassAll]) := by
  refine ⟨?_, by decide, by decide, by decide⟩
  intro lines c out h
  have step : ∀ c0 out0 l c2 out2,
      (c0.after_gq ≤ c0.after_dp ∧ c0.after_dp ≤ c0.after_gt ∧
        c0.after_gt ≤ c0.n_records) →
      processLine c0 out0 l = .ok (c2, out2) →
      c2.after_gq ≤ c2.after_dp ∧ c2.after_dp ≤ c2.after_gt ∧
        c2.after_gt ≤ c2.n_records := by
    intro c0 out0 l c2 out2 hp hpl
    obtain ⟨ha, hb, hc⟩ := hp
    rcases processLine_cases c0 out0 l c2 out2 hpl with
      ⟨-, rfl, -⟩ | ⟨-, -, rfl, -⟩ | ⟨-, -, -, rfl, -⟩ |
      ⟨-, -, -, -, rfl, -⟩ | ⟨-, -, -, -, -, rfl, -⟩ |
      ⟨-, -, -, -, -, rfl, -⟩
    · exact ⟨ha, hb, hc⟩
    · exact ⟨ha, hb, hc⟩
    · cases hm : gtMissing (reparse l).1 <;> simp [cRec, hm] <;> omega
    · cases hm : gtMissing (reparse l).1 <;>
        simp [cHet, cRec, hm] <;> omega
    · cases hm : gtMissing (reparse l).1 <;>
        simp [cDp, cHet, cRec, hm] <;> omega
    · cases hm : gtMissing (reparse l).1 <;>
        simp [cGq, cDp, cHet, cRec, hm] <;> omega
  exact filterLoop_inv
    (fun d _ => d.after_gq ≤ d.after_dp ∧ d.after_dp ≤ d.after_gt ∧
      d.after_gt ≤ d.n_records)
    (fun c0 out0 l c2 out2 => step c0 out0 l c2 out2)
    lines Counts.init [] c out (by simp [Counts.init]) h

theorem gvcf_C2_funnel_witness :
    (⟨1, 0, 1, 1, 1⟩ : Counts).after_gq ≤
      (⟨1, 0, 1, 1, 1⟩ : Counts).after_dp ∧
    (⟨1, 0, 1, 1, 1⟩ : Counts).after_dp ≤
      (⟨1, 0, 1, 1, 1⟩ : Counts).after_gt ∧
    (⟨1, 0, 1, 1, 1⟩ : Counts).after_gt ≤
      (⟨1, 0, 1, 1, 1⟩ : Counts).n_records :=
  gvcf_C2_funnel.1 [linePassAll] ⟨1, 0, 1, 1, 1⟩ [linePassAll] (by decide)

/-- C7: a counted data line whose extracted genotype is absent or one of
the missing tokens increments the missing-genotype counter and the record
counter, still reaches the heterozygosity test, fails it, and touches
neither the funnel counters nor the output. -/
theorem gtMissing_not_het (gt : Option PyStr)
    (h : gtMissing gt = true) : is_heterozygous gt = false := by
  cases gt with
  | none => decide
  | some s =>
    simp only [gtMissing] at h
    simp at h
    rcases h with (rfl | rfl) | rfl <;> decide

theorem gvcf_C7_missing_gt (line : PyStr) (c : Counts) (out : List PyStr)
    (h1 : startsHash line = false)
    (h2 : 10 ≤ (lineParts line).length)
    (h3 : gtMissing (reparse line).1 = true) :
    is_heterozygous (reparse line).1 = false ∧
    processLine c out line =
      .ok ({ c with
             n_records := c.n_records + 1
             gt_missing := c.gt_missing + 1 }, out) := by
  have hhet : is_heterozygous (reparse line).1 = false :=
    gtMissing_not_het (reparse line).1 h3
  refine ⟨hhet, ?_⟩
  have h2p : ¬ (splitChar '\t' (rstripNL line)).length < 10 := by
    simp only [lineParts] at h2
    omega
  have hhetp : ¬ is_heterozygous (extract_gt_dp_gq
      ((splitChar '\t' (rstripNL line)).getD 8 [])
      ((splitChar '\t' (rstripNL line)).getD 9 [])).1 = true := by
    simp only [reparse, lineParts] at hhet
    rw [hhet]
    simp
  have h3p : gtMissing (extract_gt_dp_gq
      ((splitChar '\t' (rstripNL line)).getD 8 [])
      ((splitChar '\t' (rstripNL line)).getD 9 [])).1 = true := by
    simpa only [reparse, lineParts] using h3
  simp only [processLine]
  rw [if_neg (by simp [h1]), if_neg h2p, if_neg hhetp, if_pos h3p]

theorem gvcf_C7_missing_gt_witness :
    is_heterozygous (reparse lineMissingGT).1 = false ∧
    processLine Counts.init [] lineMissingGT =
      .ok ({ Counts.init with
             n_records := Counts.init.n_records + 1
             gt_missing := Counts.init.gt_missing + 1 }, []) :=
  gvcf_C7_missing_gt lineMissingGT Counts.init [] (by decide) (by decide)
    (by decide)

/-- C5: every line that `filter_and_count` writes to the output stream and
that is not a header, when re-parsed the way the engine parses lines,
has at least 10 fields and extracted GT, DP, GQ values that independently
satisfy all three predicates. -/
theorem gvcf_C5_roundtrip (lines : List PyStr) (c : Counts)
    (out : List PyStr) (h : filter_and_count lines = .ok (c, out)) :
    ∀ l ∈ out, startsHash l = false →
      10 ≤ (lineParts l).length ∧
      is_heterozygous (reparse l).1 = true ∧
      dp_passes (reparse l).2.1 = .ok true ∧
      gq_passes (reparse l).2.2 = .ok true := by
  have step : ∀ c0 out0 l c2 out2,
      (∀ x ∈ out0, startsHash x = false →
        10 ≤ (lineParts x).length ∧
        is_heterozygous (reparse x).1 = true ∧
        dp_passes (reparse x).2.1 = .ok true ∧
        gq_passes (reparse x).2.2 = .ok true) →
      processLine c0 out0 l = .ok (c2, out2) →
      (∀ x ∈ out2, startsHash x = false →
        10 ≤ (lineParts x).length ∧
        is_heterozygous (reparse x).1 = true ∧
        dp_passes (reparse x).2.1 = .ok true ∧
        gq_passes (reparse x).2.2 = .ok true) := by
    intro c0 out0 l c2 out2 hp hpl
    rcases processLine_cases c0 out0 l c2 out2 hpl with
      ⟨hh, -, rfl⟩ | ⟨-, -, -, rfl⟩ | ⟨-, -, -, -, rfl⟩ |
      ⟨-, -, -, -, -, rfl⟩ | ⟨-, -, -, -, -, -, rfl⟩ |
      ⟨-, hlen, hhet, hdp, hgq, -, rfl⟩
    · intro x hx hxh
      rcases List.mem_append.mp hx with hx | hx
      · exact hp x hx hxh
      · rw [List.mem_singleton.mp hx] at hxh
        rw [hh] at hxh
        exact absurd hxh (by simp)
    · exact hp
    · exact hp
    · exact hp
    · exact hp
    · intro x hx hxh
      rcases List.mem_append.mp hx with hx | hx
      · exact hp x hx hxh
      · rw [List.mem_singleton.mp hx]
        exact ⟨hlen, hhet, hdp, hgq⟩
  exact filterLoop_inv
    (fun _ o => ∀ x ∈ o, startsHash x = false →
      10 ≤ (lineParts x).length ∧
      is_heterozygous (reparse x).1 = true ∧
      dp_passes (reparse x).2.1 = .ok true ∧
      gq_passes (reparse x).2.2 = .ok true)
    step lines Counts.init [] c out (by simp) h

theorem gvcf_C5_roundtrip_witness :
    10 ≤ (lineParts linePassAll).length ∧
    is_heterozygous (reparse linePassAll).1 = true ∧
    dp_passes (reparse linePassAll).2.1 = .ok true ∧
    gq_passes (reparse linePassAll).2.2 = .ok true :=
  gvcf_C5_roundtrip [linePassAll] ⟨1, 0, 1, 1, 1⟩ [linePassAll]
    (by decide) linePassAll (by simp) (by decide)

theorem mem_of_getLast?_eq {α : Type} {l : List α} {a : α}
    (h : l.getLast? = some a) : a ∈ l := by
  obtain ⟨hne, heq⟩ :=
    List.mem_getLast?_eq_getLast (show a ∈ l.getLast? by simp [h])
  rw [heq]
  exact List.getLast_mem hne

theorem splitChar_ne_nil (sep : Char) (l : PyStr) : splitChar sep l ≠ [] := by
  cases l with
  | nil => simp [splitChar]
  | cons c cs =>
    simp only [splitChar]
    cases splitChar sep cs with
    | nil => simp
    | cons t ts => by_cases h : c = sep <;> simp [h]

theorem splitChar_cons (sep c : Char) (cs : PyStr) :
    splitChar sep (c :: cs) =
      match splitChar sep cs with
      | [] => [[]]
      | t :: ts => if c = sep then [] :: t :: ts else (c :: t) :: ts := rfl

theorem splitChar_getLast (sep : Char) :
    ∀ (l : PyStr) (a : Char), l.getLast? = some a → a ≠ sep →
      ∃ t, (splitChar sep l).getLast? = some t ∧ t.getLast? = some a := by
  intro l
  induction l with
  | nil => intro a ha _; simp at ha
  | cons c cs ih =>
    intro a ha hne
    cases cs with
    | nil =>
      have hca : c = a := by simpa using ha
      subst hca
      simp only [splitChar]
      rw [if_neg hne]
      exact ⟨[c], by simp, by simp⟩
    | cons d ds =>
      have ha2 : (d :: ds).getLast? = some a := by
        rw [List.getLast?_cons_cons] at ha
        exact ha
      obtain ⟨t, ht1, ht2⟩ := ih a ha2 hne
      cases hsp : splitChar sep (d :: ds) with
      | nil => exact absurd hsp (splitChar_ne_nil sep (d :: ds))
      | cons t0 ts =>
        rw [splitChar_cons, hsp]
        simp only []
        by_cases hc : c = sep
        · rw [if_pos hc]
          refine ⟨t, ?_, ht2⟩
          rw [List.getLast?_cons_cons, ← hsp]
          exact ht1
        · rw [if_neg hc]
          cases ts with
          | nil =>
            have ht0t : t0 = t := by
              rw [hsp] at ht1
              simpa using ht1
            subst ht0t
            have ht0ne : t0 ≠ [] := by
              intro hh
              rw [hh] at ht2
              simp at ht2
            refine ⟨c :: t0, by simp, ?_⟩
            cases t0 with
            | nil => exact absurd rfl ht0ne
            | cons x xs =>
              rw [List.getLast?_cons_cons]
              exact ht2
          | cons t1 ts2 =>
            refine ⟨t, ?_, ht2⟩
            rw [hsp] at ht1
            rw [List.getLast?_cons_cons] at ht1 ⊢
            exact ht1

theorem rstripNL_crlf (pre : PyStr) :
    rstripNL (pre ++ ['\r', '\n']) = pre ++ ['\r'] := by
  simp only [rstripNL, List.reverse_append, List.reverse_cons,
    List.reverse_nil, List.nil_append, List.cons_append, List.dropWhile_cons]
  rw [if_pos (by decide), if_neg (by decide)]
  simp

theorem getD_of_getLast?_eq {l : List PyStr} {n : Nat}
    (hn : l.length = n + 1) {v : PyStr} (hv : l.getLast? = some v) :
    l.getD n [] = v := by
  rw [List.getD_eq_getElem?_getD]
  rw [List.getLast?_eq_getElem?, hn, Nat.add_sub_cancel] at hv
  rw [hv]
  rfl

theorem zip_getLast?_eq {ks vs : List PyStr} (hlen : ks.length = vs.length)
    {k v : PyStr} (hk : ks.getLast? = some k) (hv : vs.getLast? = some v) :
    (ks.zip vs).getLast? = some (k, v) := by
  rw [List.getLast?_eq_getElem?] at hk hv ⊢
  rw [List.length_zip, hlen, Nat.min_self]
  exact List.getElem?_zip_eq_some.mpr ⟨by rw [← hlen]; exact hk, hv⟩

theorem lastWins_append_single (k : PyStr) (ps : List (PyStr × PyStr))
    (p : PyStr × PyStr) :
    lastWins k (ps ++ [p]) =
      if p.1 = k then some p.2 else lastWins k ps := by
  induction ps with
  | nil => by_cases h : p.1 = k <;> simp [lastWins, h]
  | cons q ps ih =>
    simp only [List.cons_append, lastWins, List.append_eq, ih]
    by_cases h : p.1 = k
    · simp [h]
    · simp only [if_neg h]

theorem reparse_components (line : PyStr) :
    (reparse line).1 =
      ((lineKeys line).zip (lineVals line)).reverse.lookup "GT".data ∧
    (reparse line).2.1 =
      ((lineKeys line).zip (lineVals line)).reverse.lookup "DP".data ∧
    (reparse line).2.2 =
      ((lineKeys line).zip (lineVals line)).reverse.lookup "GQ".data :=
  ⟨rfl, rfl, rfl⟩

theorem reparse_last_key (line : PyStr) (key : PyStr)
    (hkv : (lineKeys line).length = (lineVals line).length)
    (hk : (lineKeys line).getLast? = some key)
    {w : PyStr} (hw : (lineVals line).getLast? = some w) :
    ((lineKeys line).zip (lineVals line)).reverse.lookup key = some w := by
  rw [lookup_reverse_eq_lastWins]
  have hz := zip_getLast?_eq hkv hk hw
  have hd := @List.dropLast_append_getLast? (PyStr × PyStr)
    ((lineKeys line).zip (lineVals line)) (key, w) (by simp [hz])
  rw [← hd, lastWins_append_single]
  simp

theorem pyIsDigit_cr (v : PyStr) (hv : v.getLast? = some '\r') :
    pyIsDigit v = false := by
  have hmem : '\r' ∈ v := mem_of_getLast?_eq hv
  have hall : v.all
      (fun c => (pyDecimalVal c).isSome || pyDigitOnly c) = false := by
    rw [← Bool.not_eq_true, List.all_eq_true]
    intro hallt
    exact absurd (hallt '\r' hmem) (by decide)
  simp [pyIsDigit, hall]

theorem dp_passes_cr (v : PyStr) (hv : v.getLast? = some '\r') :
    dp_passes (some v) = .ok false := by
  simp [dp_passes, pyIsDigit_cr v hv]

theorem gq_passes_cr (v : PyStr) (hv : v.getLast? = some '\r') :
    gq_passes (some v) = .ok false := by
  simp [gq_passes, pyIsDigit_cr v hv]

/-- C10: because the loop strips only newline characters before splitting,
a data line terminated by a carriage-return/newline pair keeps the carriage
return attached to the last colon-delimited sample value; when the last
FORMAT key of such a line is DP or GQ, the corresponding numeric predicate
evaluates a string ending in the carriage return, returns false, and the
line is never written to the output. -/
theorem gvcf_C10_crlf_line (line pre : PyStr) (c : Counts)
    (out : List PyStr)
    (hline : line = pre ++ ['\r', '\n'])
    (hhdr : startsHash line = false)
    (hlen : (lineParts line).length = 10)
    (hkv : (lineKeys line).length = (lineVals line).length) :
    ((lineKeys line).getLast? = some "DP".data →
      ∃ v, (reparse line).2.1 = some v ∧ v.getLast? = some '\r' ∧
        dp_passes (some v) = .ok false) ∧
    ((lineKeys line).getLast? = some "GQ".data →
      ∃ v, (reparse line).2.2 = some v ∧ v.getLast? = some '\r' ∧
        gq_passes (some v) = .ok false) ∧
    (((lineKeys line).getLast? = some "DP".data ∨
        (lineKeys line).getLast? = some "GQ".data) →
      ∀ c2 out2, processLine c out line = .ok (c2, out2) → out2 = out) := by
  have hbody : rstripNL line = pre ++ ['\r'] := by
    rw [hline]
    exact rstripNL_crlf pre
  have hblast : (rstripNL line).getLast? = some '\r' := by
    rw [hbody]
    simp
  obtain ⟨t, htl, htr⟩ :=
    splitChar_getLast '\t' (rstripNL line) '\r' hblast (by decide)
  have htl2 : (lineParts line).getLast? = some t := by
    simpa [lineParts] using htl
  have ht9 : (lineParts line).getD 9 [] = t := getD_of_getLast?_eq hlen htl2
  obtain ⟨w, hwl, hwr⟩ :
      ∃ w, (lineVals line).getLast? = some w ∧ w.getLast? = some '\r' := by
    have h2 := splitChar_getLast ':' t '\r' htr (by decide)
    have hvals : lineVals line = splitChar ':' t := by
      unfold lineVals
      rw [ht9]
    rw [hvals]
    exact h2
  have hDPval : (lineKeys line).getLast? = some "DP".data →
      (reparse line).2.1 = some w := by
    intro hk
    rw [(reparse_components line).2.1]
    exact reparse_last_key line "DP".data hkv hk hwl
  have hGQval : (lineKeys line).getLast? = some "GQ".data →
      (reparse line).2.2 = some w := by
    intro hk
    rw [(reparse_components line).2.2]
    exact reparse_last_key line "GQ".data hkv hk hwl
  refine ⟨?_, ?_, ?_⟩
  · intro hk
    exact ⟨w, hDPval hk, hwr, dp_passes_cr w hwr⟩
  · intro hk
    exact ⟨w, hGQval hk, hwr, gq_passes_cr w hwr⟩
  · intro hkey c2 out2 hpl
    rcases processLine_cases c out line c2 out2 hpl with
      ⟨hh, -, -⟩ | ⟨-, -, -, hout⟩ | ⟨-, -, -, -, hout⟩ |
      ⟨-, -, -, -, -, hout⟩ | ⟨-, -, -, -, -, -, hout⟩ |
      ⟨-, -, -, hdp, hgq, -, hout⟩
    · rw [hh] at hhdr
      exact absurd hhdr (by simp)
    · exact hout
    · exact hout
    · exact hout
    · exact hout
    · rcases hkey with hk | hk
      · rw [hDPval hk, dp_passes_cr w hwr] at hdp
        exact absurd hdp (by simp)
      · rw [hGQval hk, gq_passes_cr w hwr] at hgq
        exact absurd hgq (by simp)

theorem gvcf_C10_crlf_line_witness :
    (reparse lineCRLF).2.1 = some "21\r".data ∧
    dp_passes (some "21\r".data) = .ok false ∧
    processLine Counts.init [] lineCRLF = .ok (⟨1, 0, 1, 0, 0⟩, []) := by
  have h := gvcf_C10_crlf_line lineCRLF lineCRLFbody Counts.init []
    (by decide) (by decide) (by decide) (by decide)
  obtain ⟨v, hv, -, hdp⟩ := h.1 (by decide)
  have hv2 : (reparse lineCRLF).2.1 = some "21\r".data := by decide
  have hveq : v = "21\r".data := Option.some.inj (hv.symm.trans hv2)
  subst hveq
  exact ⟨hv2, hdp, by decide⟩
